import Mathlib

/-!
Shallow embedding of the kanban task store from `main.go` of
zypherscript/go-htmx-kanban-demo.

The Go program keeps an in-memory `map[int]*Task` together with a `nextID`
counter, and persists the whole state to a JSON file on every mutation.
We model the Go map as an association list with insert-or-replace
semantics (`mapInsert`) and first-match lookup (`mapLookup`); since a Go
map never holds two entries with the same key, `mapInsert` replaces an
existing binding in place.  The JSON file on disk is modelled by an
explicit `FileState`: absent, unreadable, undecodable, or holding a
decoded `PersistentData` value.
-/

set_option autoImplicit false

namespace Kanban

/-- `Task` mirrors the Go struct: ID, Title, Description, Status.
The status is a plain string; the code nowhere restricts it. -/
structure Task where
  id : Int
  title : String
  description : String
  status : String
deriving DecidableEq, Repr

/-- `TaskStore` mirrors the Go struct: the task map and the next-id
counter.  The mutex and the file path are not part of the functional
state. -/
structure TaskStore where
  tasks : List (Int × Task)
  nextID : Int
deriving DecidableEq, Repr

/-- Go map write `m[k] = v`: replace the binding of `k` if present,
otherwise add it. -/
def mapInsert (k : Int) (v : Task) : List (Int × Task) → List (Int × Task)
  | [] => [(k, v)]
  | (k', v') :: rest =>
      if k' = k then (k, v) :: rest else (k', v') :: mapInsert k v rest

/-- Go map read `m[k]`: the value bound to `k`, if any. -/
def mapLookup (k : Int) : List (Int × Task) → Option Task
  | [] => none
  | (k', v) :: rest => if k' = k then some v else mapLookup k rest

/-- The global `store` variable before any operation: no tasks,
`nextID = 1`. -/
def initialStore : TaskStore :=
  { tasks := [], nextID := 1 }

/-- `AddTask`: build a task with id `nextID`, status `"todo"`, the given
title and description; store it under its id; increment the counter;
return the new store and the created task. -/
def AddTask (s : TaskStore) (title descr : String) : TaskStore × Task :=
  let task : Task :=
    { id := s.nextID, title := title, description := descr, status := "todo" }
  ({ s with tasks := mapInsert task.id task s.tasks, nextID := s.nextID + 1 },
   task)

/-- `GetTask`: lookup by id, `none` encodes the Go `ok = false`. -/
def GetTask (s : TaskStore) (id : Int) : Option Task :=
  mapLookup id s.tasks

/-- `GetTasksByStatus`: every task in the map whose status equals the
argument (the Go map iteration order is unspecified; we use the list
order of the model). -/
def GetTasksByStatus (s : TaskStore) (status : String) : List Task :=
  (s.tasks.map Prod.snd).filter (fun t => t.status = status)

/-- `MoveTask`: if `id` is absent return `(nil, false)` and leave the
store alone; otherwise overwrite the task's status with `newStatus`
(the Go code mutates the task in place, which for the map is a
replacement at the same key) and return the updated task. -/
def MoveTask (s : TaskStore) (id : Int) (newStatus : String) :
    TaskStore × Option Task :=
  match mapLookup id s.tasks with
  | none => (s, none)
  | some task =>
      let task' := { task with status := newStatus }
      ({ s with tasks := mapInsert id task' s.tasks }, some task')

/-- `PersistentData` mirrors the Go persistence struct: the task list
and the saved counter. -/
structure PersistentData where
  tasks : List Task
  next_id : Int
deriving DecidableEq, Repr

/-- `saveToFile`, up to the I/O boundary: the data the store serializes,
namely all tasks (in map order) together with `nextID`. -/
def saveToFile (s : TaskStore) : PersistentData :=
  { tasks := s.tasks.map Prod.snd, next_id := s.nextID }

/-- What `LoadFromFile` can find on disk: no file, a file that cannot be
read, a file that cannot be decoded, or a file decoding to `d`. -/
inductive FileState where
  | absent
  | readError
  | decodeError
  | good (d : PersistentData)
deriving DecidableEq, Repr

/-- The load loop `for _, task := range data.Tasks { s.tasks[task.ID] = task }`
starting from the fresh empty map. -/
def loadTasks (l : List Task) : List (Int × Task) :=
  l.foldl (fun m t => mapInsert t.id t m) []

/-- `LoadFromFile`: absent file is not an error and changes nothing; a
read or decode failure is returned as an error (`true`) with the store
untouched; good data replaces the task map and the counter.  The `Bool`
is `true` exactly when the Go function returns a non-nil error. -/
def LoadFromFile (s : TaskStore) : FileState → TaskStore × Bool
  | .absent => (s, false)
  | .readError => (s, true)
  | .decodeError => (s, true)
  | .good d =>
      ({ s with tasks := loadTasks d.tasks, nextID := d.next_id }, false)

/-- One client call that mutates the store (the HTTP layer only ever
mutates through these two). -/
inductive Op where
  | add (title descr : String)
  | move (id : Int) (status : String)
deriving DecidableEq, Repr

/-- Apply one mutating operation, dropping the returned value. -/
def applyOp (s : TaskStore) : Op → TaskStore
  | .add t d => (AddTask s t d).1
  | .move id st => (MoveTask s id st).1

/-- Run a sequence of mutating operations. -/
def runOps (s : TaskStore) (ops : List Op) : TaskStore :=
  ops.foldl applyOp s

/-- Run a sequence of `AddTask` calls, collecting the returned ids in
call order. -/
def runAdds (s : TaskStore) : List (String × String) → TaskStore × List Int
  | [] => (s, [])
  | (t, d) :: rest =>
      let r := AddTask s t d
      let r' := runAdds r.1 rest
      (r'.1, r.2.id :: r'.2)

/-- The spec invariant: `nextID` is strictly greater than every stored
task's id. -/
def idBound (s : TaskStore) : Prop :=
  ∀ p ∈ s.tasks, p.2.id < s.nextID

instance (s : TaskStore) : Decidable (idBound s) :=
  inferInstanceAs (Decidable (∀ p ∈ s.tasks, p.2.id < s.nextID))

/-- Well-formedness that every Go map state has by construction: keys
are pairwise distinct, and every binding's key is the stored task's own
id (every write in the program is `m[task.ID] = task`). -/
def WF (s : TaskStore) : Prop :=
  s.tasks.Pairwise (fun p q => p.1 ≠ q.1) ∧ ∀ p ∈ s.tasks, p.1 = p.2.id

instance (s : TaskStore) : Decidable (WF s) :=
  inferInstanceAs (Decidable (_ ∧ _))

/-! ### Association-list map lemmas -/

theorem mapLookup_insert_self (k : Int) (v : Task) (l : List (Int × Task)) :
    mapLookup k (mapInsert k v l) = some v := by
  induction l with
  | nil => simp [mapInsert, mapLookup]
  | cons p rest ih =>
      obtain ⟨k', v'⟩ := p
      by_cases h : k' = k
      · simp [mapInsert, h, mapLookup]
      · simp [mapInsert, h, mapLookup, ih]

theorem mapLookup_insert_ne (j k : Int) (v : Task) (l : List (Int × Task))
    (h : j ≠ k) : mapLookup j (mapInsert k v l) = mapLookup j l := by
  have hkj : ¬ k = j := fun hkj => h hkj.symm
  induction l with
  | nil =>
      simp [mapInsert, mapLookup, hkj]
  | cons p rest ih =>
      obtain ⟨k', v'⟩ := p
      by_cases hk : k' = k
      · subst hk
        simp [mapInsert, mapLookup, hkj]
      · simp [mapInsert, hk, mapLookup, ih]

theorem mem_mapInsert (p : Int × Task) (k : Int) (v : Task)
    (l : List (Int × Task)) (h : p ∈ mapInsert k v l) : p = (k, v) ∨ p ∈ l := by
  induction l with
  | nil => simpa [mapInsert] using h
  | cons q rest ih =>
      obtain ⟨k', v'⟩ := q
      by_cases hk : k' = k
      · simp [mapInsert, hk] at h
        rcases h with h | h
        · exact Or.inl (by simp [h])
        · exact Or.inr (List.mem_cons_of_mem _ h)
      · simp [mapInsert, hk] at h
        rcases h with h | h
        · exact Or.inr (by simp [h])
        · rcases ih h with h' | h'
          · exact Or.inl h'
          · exact Or.inr (List.mem_cons_of_mem _ h')

theorem mapLookup_mem (k : Int) (v : Task) (l : List (Int × Task))
    (h : mapLookup k l = some v) : (k, v) ∈ l := by
  induction l with
  | nil => simp [mapLookup] at h
  | cons q rest ih =>
      obtain ⟨k', v'⟩ := q
      by_cases hk : k' = k
      · subst hk
        simp [mapLookup] at h
        simp [h]
      · simp [mapLookup, hk] at h
        exact List.mem_cons_of_mem _ (ih h)

theorem mapLookup_isSome_iff (k : Int) (l : List (Int × Task)) :
    (mapLookup k l).isSome = true ↔ ∃ p ∈ l, p.1 = k := by
  induction l with
  | nil => simp [mapLookup]
  | cons q rest ih =>
      obtain ⟨k', v'⟩ := q
      by_cases hk : k' = k
      · subst hk
        simp [mapLookup]
      · simp [mapLookup, hk, ih]

theorem mapInsert_insert (k : Int) (v w : Task) (l : List (Int × Task)) :
    mapInsert k v (mapInsert k w l) = mapInsert k v l := by
  induction l with
  | nil => simp [mapInsert]
  | cons q rest ih =>
      obtain ⟨k', v'⟩ := q
      by_cases hk : k' = k
      · simp [mapInsert, hk]
      · simp [mapInsert, hk, ih]

theorem mapInsert_of_fresh (k : Int) (v : Task) (l : List (Int × Task))
    (h : ∀ p ∈ l, p.1 ≠ k) : mapInsert k v l = l ++ [(k, v)] := by
  induction l with
  | nil => simp [mapInsert]
  | cons q rest ih =>
      obtain ⟨k', v'⟩ := q
      have hk : k' ≠ k := h (k', v') (by simp)
      simp [mapInsert, hk]
      exact ih fun p hp => h p (List.mem_cons_of_mem _ hp)

/-! ### Lemmas about the load loop -/

theorem mem_foldl_insert (l : List Task) (acc : List (Int × Task))
    (p : Int × Task)
    (h : p ∈ l.foldl (fun m t => mapInsert t.id t m) acc) :
    p ∈ acc ∨ p.2 ∈ l := by
  induction l generalizing acc with
  | nil => exact Or.inl (by simpa using h)
  | cons t rest ih =>
      rw [List.foldl_cons] at h
      rcases ih (mapInsert t.id t acc) h with h' | h'
      · rcases mem_mapInsert p t.id t acc h' with h'' | h''
        · exact Or.inr (by simp [h''])
        · exact Or.inl h''
      · exact Or.inr (List.mem_cons_of_mem _ h')

theorem foldl_insert_fresh (l : List Task) (acc : List (Int × Task))
    (hacc : ∀ t ∈ l, ∀ p ∈ acc, p.1 ≠ t.id)
    (hl : l.Pairwise (fun a b => a.id ≠ b.id)) :
    l.foldl (fun m t => mapInsert t.id t m) acc =
      acc ++ l.map (fun t => (t.id, t)) := by
  induction l generalizing acc with
  | nil => simp
  | cons t rest ih =>
      rw [List.foldl_cons,
        mapInsert_of_fresh t.id t acc (fun p hp => hacc t (by simp) p hp)]
      rw [List.pairwise_cons] at hl
      rw [ih (acc ++ [(t.id, t)]) ?_ hl.2]
      · simp
      · intro u hu p hp
        rcases List.mem_append.mp hp with hp' | hp'
        · exact hacc u (List.mem_cons_of_mem _ hu) p hp'
        · have : p = (t.id, t) := by simpa using hp'
          subst this
          exact hl.1 u hu

theorem loadTasks_save (s : TaskStore) (h : WF s) :
    loadTasks (s.tasks.map Prod.snd) = s.tasks := by
  obtain ⟨hpair, hkey⟩ := h
  have hpw : (s.tasks.map Prod.snd).Pairwise (fun a b => a.id ≠ b.id) := by
    rw [List.pairwise_map]
    refine hpair.imp_of_mem ?_
    intro p q hp hq hne hid
    exact hne (by rw [hkey p hp, hkey q hq, hid])
  unfold loadTasks
  rw [foldl_insert_fresh _ [] (by simp) hpw]
  rw [List.nil_append, List.map_map]
  have hmap : s.tasks.map ((fun t => (t.id, t)) ∘ Prod.snd) =
      s.tasks.map (fun p => p) := by
    refine List.map_congr_left fun p hp => ?_
    obtain ⟨a, b⟩ := p
    have hab : a = b.id := by simpa using hkey (a, b) hp
    simp [Function.comp, hab]
  rw [hmap]
  simp

theorem runAdds_ids (l : List (String × String)) (s : TaskStore) :
    (runAdds s l).2 =
      (List.range l.length).map (fun (i : Nat) => s.nextID + (i : Int)) := by
  induction l generalizing s with
  | nil => simp [runAdds]
  | cons p rest ih =>
      obtain ⟨t, d⟩ := p
      have h1 : (runAdds s ((t, d) :: rest)).2 =
          s.nextID :: (runAdds (AddTask s t d).1 rest).2 := rfl
      have h2 : (AddTask s t d).1.nextID = s.nextID + 1 := rfl
      rw [h1, ih, h2, List.length_cons, List.range_succ_eq_map,
        List.map_cons, List.map_map]
      refine List.cons_eq_cons.mpr ⟨by simp, ?_⟩
      refine List.map_congr_left fun i _ => ?_
      show s.nextID + 1 + (i : Int) = s.nextID + ((Nat.succ i : Nat) : Int)
      push_cast
      ring

/-- A concrete store with two tasks, used to instantiate theorems with
hypotheses on explicit inputs. -/
def demoStore : TaskStore :=
  { tasks :=
      [(1, { id := 1, title := "A", description := "", status := "doing" }),
       (2, { id := 2, title := "B", description := "b", status := "todo" })],
    nextID := 3 }

/-! ### Claim theorems -/

/-- Claim C1: starting from the initial empty store, every sequence of
`AddTask` calls returns the ids `1, 2, 3, ...` in call order: strictly
increasing, starting at 1, with no gaps and no reuse. -/
theorem AddTask_ids_consecutive (l : List (String × String)) :
    (runAdds initialStore l).2 =
      (List.range l.length).map (fun (i : Nat) => (i : Int) + 1) := by
  rw [runAdds_ids]
  refine List.map_congr_left fun i _ => ?_
  show initialStore.nextID + (i : Int) = (i : Int) + 1
  show (1 : Int) + (i : Int) = (i : Int) + 1
  ring

/-- Claim C3: for every title and description (empty strings included),
`AddTask` returns a task with status `"todo"`, the given title and
description, and id equal to the current next-id; the task is stored
under its id and the next-id counter is incremented by one. -/
theorem AddTask_spec (s : TaskStore) (title descr : String) :
    (AddTask s title descr).2.status = "todo" ∧
    (AddTask s title descr).2.title = title ∧
    (AddTask s title descr).2.description = descr ∧
    (AddTask s title descr).2.id = s.nextID ∧
    GetTask (AddTask s title descr).1 s.nextID = some (AddTask s title descr).2 ∧
    (AddTask s title descr).1.nextID = s.nextID + 1 := by
  refine ⟨rfl, rfl, rfl, rfl, ?_, rfl⟩
  simp [GetTask, AddTask, mapLookup_insert_self]

/-- Claim C4: saving any well-formed store and loading the result
reconstructs the store exactly — same tasks (statuses preserved
verbatim, canonical or not) and same next-id — with no error. -/
theorem save_load_roundtrip (s : TaskStore) (h : WF s) :
    LoadFromFile s (FileState.good (saveToFile s)) = (s, false) := by
  show ({ s with tasks := loadTasks (s.tasks.map Prod.snd), nextID := s.nextID },
      false) = (s, false)
  rw [loadTasks_save s h]

/-- Witness for C4 at a concrete two-task store with a non-canonical
status kept verbatim. -/
theorem save_load_roundtrip_witness :
    WF demoStore ∧
      LoadFromFile demoStore (FileState.good (saveToFile demoStore)) =
        (demoStore, false) :=
  ⟨by decide, save_load_roundtrip demoStore (by decide)⟩

/-- Claim C8: `MoveTask` on an id absent from the store returns the
not-found signal and leaves the store entirely unchanged. -/
theorem MoveTask_notFound (s : TaskStore) (id : Int) (st : String)
    (h : GetTask s id = none) : MoveTask s id st = (s, none) := by
  unfold GetTask at h
  simp [MoveTask, h]

/-- Witness for C8: moving absent id 1 in the initial store. -/
theorem MoveTask_notFound_witness :
    GetTask initialStore 1 = none ∧
      MoveTask initialStore 1 "doing" = (initialStore, none) :=
  ⟨rfl, MoveTask_notFound initialStore 1 "doing" rfl⟩

/-- Claim C9: `LoadFromFile` errs exactly when the file exists but
cannot be read or decoded; an absent file yields no error and leaves the
store (the empty store it was initialized to) unchanged; read and
decode failures leave tasks and next-id unchanged. -/
theorem LoadFromFile_errors (s : TaskStore) :
    LoadFromFile s FileState.absent = (s, false) ∧
    LoadFromFile s FileState.readError = (s, true) ∧
    LoadFromFile s FileState.decodeError = (s, true) ∧
    LoadFromFile initialStore FileState.absent = (initialStore, false) ∧
    (∀ f : FileState, (LoadFromFile s f).2 = true ↔
      f = FileState.readError ∨ f = FileState.decodeError) := by
  refine ⟨rfl, rfl, rfl, rfl, fun f => ?_⟩
  cases f <;> simp [LoadFromFile]

/-- Claim C5: when every stored task's status is one of `"todo"`,
`"doing"`, `"done"`, the three `GetTasksByStatus` results are pairwise
disjoint and together contain exactly the tasks of the store. -/
theorem GetTasksByStatus_partition (s : TaskStore)
    (h : ∀ p ∈ s.tasks, p.2.status = "todo" ∨ p.2.status = "doing" ∨
      p.2.status = "done") :
    (∀ t : Task,
      ¬ (t ∈ GetTasksByStatus s "todo" ∧ t ∈ GetTasksByStatus s "doing")) ∧
    (∀ t : Task,
      ¬ (t ∈ GetTasksByStatus s "todo" ∧ t ∈ GetTasksByStatus s "done")) ∧
    (∀ t : Task,
      ¬ (t ∈ GetTasksByStatus s "doing" ∧ t ∈ GetTasksByStatus s "done")) ∧
    (∀ t : Task, t ∈ s.tasks.map Prod.snd ↔
      (t ∈ GetTasksByStatus s "todo" ∨ t ∈ GetTasksByStatus s "doing" ∨
       t ∈ GetTasksByStatus s "done")) := by
  have hmem : ∀ (st : String) (t : Task),
      t ∈ GetTasksByStatus s st ↔ t ∈ s.tasks.map Prod.snd ∧ t.status = st := by
    intro st t
    simp [GetTasksByStatus, List.mem_filter]
  refine ⟨?_, ?_, ?_, ?_⟩
  · rintro t ⟨h1, h2⟩
    rw [hmem] at h1 h2
    rw [h1.2] at h2
    exact absurd h2.2 (by decide)
  · rintro t ⟨h1, h2⟩
    rw [hmem] at h1 h2
    rw [h1.2] at h2
    exact absurd h2.2 (by decide)
  · rintro t ⟨h1, h2⟩
    rw [hmem] at h1 h2
    rw [h1.2] at h2
    exact absurd h2.2 (by decide)
  · intro t
    constructor
    · intro ht
      obtain ⟨p, hp, hpt⟩ := List.mem_map.mp ht
      rcases h p hp with hst | hst | hst
      · exact Or.inl ((hmem _ t).mpr ⟨ht, by rw [← hpt]; exact hst⟩)
      · exact Or.inr (Or.inl ((hmem _ t).mpr ⟨ht, by rw [← hpt]; exact hst⟩))
      · exact Or.inr (Or.inr ((hmem _ t).mpr ⟨ht, by rw [← hpt]; exact hst⟩))
    · rintro (ht | ht | ht) <;> exact ((hmem _ t).mp ht).1

/-- Witness for C5 at the concrete two-task store. -/
theorem GetTasksByStatus_partition_witness :
    (∀ p ∈ demoStore.tasks, p.2.status = "todo" ∨ p.2.status = "doing" ∨
      p.2.status = "done") ∧
    ((∀ t : Task, ¬ (t ∈ GetTasksByStatus demoStore "todo" ∧
        t ∈ GetTasksByStatus demoStore "doing")) ∧
     (∀ t : Task, ¬ (t ∈ GetTasksByStatus demoStore "todo" ∧
        t ∈ GetTasksByStatus demoStore "done")) ∧
     (∀ t : Task, ¬ (t ∈ GetTasksByStatus demoStore "doing" ∧
        t ∈ GetTasksByStatus demoStore "done")) ∧
     (∀ t : Task, t ∈ demoStore.tasks.map Prod.snd ↔
       (t ∈ GetTasksByStatus demoStore "todo" ∨
        t ∈ GetTasksByStatus demoStore "doing" ∨
        t ∈ GetTasksByStatus demoStore "done"))) :=
  ⟨by decide, GetTasksByStatus_partition demoStore (by decide)⟩

/-- Claim C6: for an id present in the store and an arbitrary string
(no validation of the status value), `MoveTask` reports success, sets
exactly that task's status field, and leaves the task's id, title and
description, every other task, and the next-id counter unchanged. -/
theorem MoveTask_found_spec (s : TaskStore) (id : Int) (st : String) (t : Task)
    (h : GetTask s id = some t) :
    (MoveTask s id st).2 = some { t with status := st } ∧
    GetTask (MoveTask s id st).1 id = some { t with status := st } ∧
    (∀ j : Int, j ≠ id → GetTask (MoveTask s id st).1 j = GetTask s j) ∧
    (MoveTask s id st).1.nextID = s.nextID := by
  unfold GetTask at h
  refine ⟨by simp [MoveTask, h], ?_, ?_, by simp [MoveTask, h]⟩
  · simp [GetTask, MoveTask, h, mapLookup_insert_self]
  · intro j hj
    simp [GetTask, MoveTask, h, mapLookup_insert_ne j id _ _ hj]

/-- Witness for C6: moving task 1 of the concrete store to the
non-canonical status `"blocked"`. -/
theorem MoveTask_found_spec_witness :
    GetTask demoStore 1 =
      some { id := 1, title := "A", description := "", status := "doing" } ∧
    ((MoveTask demoStore 1 "blocked").2 =
      some { id := 1, title := "A", description := "", status := "blocked" } ∧
     GetTask (MoveTask demoStore 1 "blocked").1 1 =
      some { id := 1, title := "A", description := "", status := "blocked" } ∧
     (∀ j : Int, j ≠ 1 →
       GetTask (MoveTask demoStore 1 "blocked").1 j = GetTask demoStore j) ∧
     (MoveTask demoStore 1 "blocked").1.nextID = demoStore.nextID) :=
  ⟨rfl, MoveTask_found_spec demoStore 1 "blocked"
    { id := 1, title := "A", description := "", status := "doing" } rfl⟩

/-- Claim C7: `MoveTask` is idempotent in its status argument: for an id
present in the store, moving twice to the same status succeeds both
times and yields the same store as moving once. -/
theorem MoveTask_idempotent (s : TaskStore) (id : Int) (st : String) (t : Task)
    (h : GetTask s id = some t) :
    (MoveTask s id st).2.isSome = true ∧
    (MoveTask (MoveTask s id st).1 id st).2.isSome = true ∧
    (MoveTask (MoveTask s id st).1 id st).1 = (MoveTask s id st).1 := by
  unfold GetTask at h
  have h1 : MoveTask s id st =
      ({ s with tasks := mapInsert id { t with status := st } s.tasks },
       some { t with status := st }) := by
    simp [MoveTask, h]
  have h2 : mapLookup id (MoveTask s id st).1.tasks =
      some { t with status := st } := by
    rw [h1]
    exact mapLookup_insert_self _ _ _
  have h3 : MoveTask (MoveTask s id st).1 id st =
      ({ (MoveTask s id st).1 with
         tasks := mapInsert id { { t with status := st } with status := st }
           (MoveTask s id st).1.tasks },
       some { { t with status := st } with status := st }) := by
    conv in MoveTask (MoveTask s id st).1 id st => rw [MoveTask]
    rw [h2]
  refine ⟨by rw [h1]; rfl, by rw [h3]; rfl, ?_⟩
  rw [h3, h1]
  show ({ s with
      tasks := mapInsert id { t with status := st }
        (mapInsert id { t with status := st } s.tasks) } : TaskStore) =
    { s with tasks := mapInsert id { t with status := st } s.tasks }
  rw [mapInsert_insert]

/-- Witness for C7: moving task 2 of the concrete store to `"done"`
twice. -/
theorem MoveTask_idempotent_witness :
    GetTask demoStore 2 =
      some { id := 2, title := "B", description := "b", status := "todo" } ∧
    ((MoveTask demoStore 2 "done").2.isSome = true ∧
     (MoveTask (MoveTask demoStore 2 "done").1 2 "done").2.isSome = true ∧
     (MoveTask (MoveTask demoStore 2 "done").1 2 "done").1 =
       (MoveTask demoStore 2 "done").1) :=
  ⟨rfl, MoveTask_idempotent demoStore 2 "done"
    { id := 2, title := "B", description := "b", status := "todo" } rfl⟩

/-- Counterexample for C2: `LoadFromFile` does not preserve the next-id
invariant.  Decoding a file whose `next_id` (here 1) is not above its
task ids (here 5) moves the invariant-satisfying initial store into a
violating state. -/
theorem loadFromFile_breaks_idBound :
    idBound initialStore ∧
      ¬ idBound (LoadFromFile initialStore
        (FileState.good
          { tasks := [{ id := 5, title := "x", description := "", status := "todo" }],
            next_id := 1 })).1 := by
  decide

/-- Claim C2 (amended): `AddTask` and `MoveTask` preserve the invariant
that next-id strictly exceeds every stored task id; `GetTask` and
`GetTasksByStatus` are pure reads and leave the store as is;
`LoadFromFile` preserves it for an absent, unreadable or undecodable
file, and for decoded data whose task ids all lie below its saved
next-id — in particular for any data written by `saveToFile` from an
invariant-satisfying store. -/
theorem idBound_preserved (s : TaskStore) (h : idBound s) :
    (∀ title descr : String, idBound (AddTask s title descr).1) ∧
    (∀ (id : Int) (st : String), idBound (MoveTask s id st).1) ∧
    idBound (LoadFromFile s FileState.absent).1 ∧
    idBound (LoadFromFile s FileState.readError).1 ∧
    idBound (LoadFromFile s FileState.decodeError).1 ∧
    (∀ d : PersistentData, (∀ t ∈ d.tasks, t.id < d.next_id) →
      idBound (LoadFromFile s (FileState.good d)).1) ∧
    (∀ s' : TaskStore, idBound s' →
      idBound (LoadFromFile s (FileState.good (saveToFile s'))).1) := by
  have hgood : ∀ d : PersistentData, (∀ t ∈ d.tasks, t.id < d.next_id) →
      idBound (LoadFromFile s (FileState.good d)).1 := by
    intro d hd p hp
    show p.2.id < d.next_id
    rcases mem_foldl_insert d.tasks [] p hp with h' | h'
    · simp at h'
    · exact hd p.2 h'
  refine ⟨?_, ?_, h, h, h, hgood, ?_⟩
  · intro title descr p hp
    show p.2.id < s.nextID + 1
    rcases mem_mapInsert p s.nextID _ s.tasks hp with h' | h'
    · rw [h']
      show s.nextID < s.nextID + 1
      omega
    · have := h p h'
      omega
  · intro id st
    cases hlk : mapLookup id s.tasks with
    | none =>
        intro p hp
        have hmv : MoveTask s id st = (s, none) := by simp [MoveTask, hlk]
        rw [hmv] at hp ⊢
        exact h p hp
    | some t =>
        intro p hp
        have hmv : (MoveTask s id st).1 =
            { s with tasks := mapInsert id { t with status := st } s.tasks } := by
          simp [MoveTask, hlk]
        rw [hmv] at hp ⊢
        show p.2.id < s.nextID
        rcases mem_mapInsert p id _ s.tasks hp with h' | h'
        · rw [h']
          exact h (id, t) (mapLookup_mem id t s.tasks hlk)
        · exact h p h'
  · intro s' hs'
    refine hgood (saveToFile s') ?_
    intro t ht
    obtain ⟨p, hp, hpt⟩ := List.mem_map.mp ht
    rw [← hpt]
    exact hs' p hp

/-- Witness for the amended C2 at the concrete two-task store. -/
theorem idBound_preserved_witness :
    idBound demoStore ∧
    ((∀ title descr : String, idBound (AddTask demoStore title descr).1) ∧
     (∀ (id : Int) (st : String), idBound (MoveTask demoStore id st).1) ∧
     idBound (LoadFromFile demoStore FileState.absent).1 ∧
     idBound (LoadFromFile demoStore FileState.readError).1 ∧
     idBound (LoadFromFile demoStore FileState.decodeError).1 ∧
     (∀ d : PersistentData, (∀ t ∈ d.tasks, t.id < d.next_id) →
       idBound (LoadFromFile demoStore (FileState.good d)).1) ∧
     (∀ s' : TaskStore, idBound s' →
       idBound (LoadFromFile demoStore (FileState.good (saveToFile s'))).1)) :=
  ⟨by decide, idBound_preserved demoStore (by decide)⟩

/-- The reachable-state invariant backing C10: `nextID` is at least 1
and an id is in the map exactly when it lies in `[1, nextID)`. -/
def contiguous (s : TaskStore) : Prop :=
  1 ≤ s.nextID ∧
    ∀ id : Int, (mapLookup id s.tasks).isSome = true ↔ 1 ≤ id ∧ id < s.nextID

theorem contiguous_applyOp (s : TaskStore) (op : Op) (h : contiguous s) :
    contiguous (applyOp s op) := by
  obtain ⟨h1, h2⟩ := h
  cases op with
  | add title descr =>
      constructor
      · show (1 : Int) ≤ s.nextID + 1
        omega
      · intro id
        show (mapLookup id (mapInsert s.nextID _ s.tasks)).isSome = true ↔
          1 ≤ id ∧ id < s.nextID + 1
        by_cases hid : id = s.nextID
        · subst hid
          rw [mapLookup_insert_self]
          simp only [Option.isSome_some, true_iff]
          omega
        · rw [mapLookup_insert_ne _ _ _ _ hid, h2 id]
          omega
  | move id st =>
      cases hlk : mapLookup id s.tasks with
      | none =>
          have hmv : applyOp s (Op.move id st) = s := by
            simp [applyOp, MoveTask, hlk]
          rw [hmv]
          exact ⟨h1, h2⟩
      | some t =>
          have hin : 1 ≤ id ∧ id < s.nextID := (h2 id).mp (by rw [hlk]; rfl)
          have hmv : applyOp s (Op.move id st) =
              { s with tasks := mapInsert id { t with status := st } s.tasks } := by
            simp [applyOp, MoveTask, hlk]
          rw [hmv]
          refine ⟨h1, ?_⟩
          intro j
          show (mapLookup j (mapInsert id _ s.tasks)).isSome = true ↔
            1 ≤ j ∧ j < s.nextID
          by_cases hj : j = id
          · subst hj
            rw [mapLookup_insert_self]
            simp only [Option.isSome_some, true_iff]
            exact hin
          · rw [mapLookup_insert_ne _ _ _ _ hj]
            exact h2 j

theorem contiguous_runOps (ops : List Op) (s : TaskStore) (h : contiguous s) :
    contiguous (runOps s ops) := by
  induction ops generalizing s with
  | nil => exact h
  | cons op rest ih => exact ih _ (contiguous_applyOp s op h)

/-- Claim C10: in every store reachable from the initial empty store by
`AddTask` and `MoveTask` calls, the set of task ids is exactly the
contiguous range from 1 to next-id minus one; hence `GetTask` finds an
id exactly when `1 ≤ id < nextID`, and every id at most 0 is not
found. -/
theorem reachable_ids_contiguous (ops : List Op) (id : Int) :
    ((∃ p ∈ (runOps initialStore ops).tasks, p.1 = id) ↔
      1 ≤ id ∧ id < (runOps initialStore ops).nextID) ∧
    ((GetTask (runOps initialStore ops) id).isSome = true ↔
      1 ≤ id ∧ id < (runOps initialStore ops).nextID) ∧
    (id ≤ 0 → GetTask (runOps initialStore ops) id = none) := by
  have hc : contiguous (runOps initialStore ops) :=
    contiguous_runOps ops initialStore
      ⟨by show (1 : Int) ≤ 1; omega,
       fun j => by
        show (mapLookup j []).isSome = true ↔ 1 ≤ j ∧ j < 1
        constructor
        · intro hfalse
          simp [mapLookup] at hfalse
        · intro hj
          exact absurd hj (by omega)⟩
  obtain ⟨h1, h2⟩ := hc
  refine ⟨?_, h2 id, ?_⟩
  · rw [← mapLookup_isSome_iff]
    exact h2 id
  · intro hid
    cases hs : GetTask (runOps initialStore ops) id with
    | none => rfl
    | some t =>
        have hin : 1 ≤ id ∧ id < (runOps initialStore ops).nextID :=
          (h2 id).mp (by show (GetTask _ _).isSome = true; rw [hs]; rfl)
        omega

/-- Witness for C10 at a concrete two-operation history and id 0. -/
theorem reachable_ids_contiguous_witness :
    ((∃ p ∈ (runOps initialStore [Op.add "A" "", Op.move 1 "doing"]).tasks,
        p.1 = 0) ↔
      1 ≤ (0 : Int) ∧
        (0 : Int) < (runOps initialStore [Op.add "A" "", Op.move 1 "doing"]).nextID) ∧
    ((GetTask (runOps initialStore [Op.add "A" "", Op.move 1 "doing"]) 0).isSome = true ↔
      1 ≤ (0 : Int) ∧
        (0 : Int) < (runOps initialStore [Op.add "A" "", Op.move 1 "doing"]).nextID) ∧
    ((0 : Int) ≤ 0 →
      GetTask (runOps initialStore [Op.add "A" "", Op.move 1 "doing"]) 0 = none) :=
  reachable_ids_contiguous [Op.add "A" "", Op.move 1 "doing"] 0

end Kanban
